import Mathlib

/-!
Shallow embedding of the virtual-scrolling list engine of
`src/gui/base/List.js` (class `List`, class `SwipeHandler`, and the two
exported comparators), together with theorems checking the frozen claims
about it.

Modelling conventions:
  * An entity is a record with a numeric identifier (`id`) and an opaque
    payload (`data`).  The source identifies entities by the element part of
    their id (`getLetId(entity)[1]`, a generated string id ordered by
    `firstBiggerThanSecond`); we model those ids as naturals with the same
    total order.
  * `config.sortCompare` is an arbitrary integer-valued comparator `Cmp`.
    JavaScript `Array.prototype.sort(cmp)` is modelled as a stable insertion
    sort with respect to the relation `cmp a b <= 0`.
  * Promise-based control flow is modelled by explicit state passing: an
    operation returns the successor state plus an `Effects` record listing
    the observable side calls it made (repositions of the row pool and
    invocations of the `elementSelected` callback).
  * The pagination promise `_loading` is modelled by a `loadingFulfilled`
    flag plus a counter `fetchCount` of outbound `config.fetch` calls.
  * Helper functions of the repository that are not under `src/`
    (`ArrayUtils.remove`, `ArrayUtils.addAll`, `ArrayUtils.arrayEquals`,
    `ArrayUtils.last`, `EntityFunctions.getLetId`) are modelled by their
    evident standard semantics: remove-first-occurrence, append,
    element-wise equality, last element, id projection.
-/

/-- Entities of the list. The source treats entities as opaque values with a
stable identifier `getLetId(entity)[1]`; `data` stands for the rest of the
record, so that `replace` can change content while keeping the identifier. -/
structure Entity where
  id : Nat
  data : Nat
deriving DecidableEq

/-- Type of the configured comparator `config.sortCompare`. -/
abbrev Cmp := Entity → Entity → Int

/-- Comparator `sortCompareById` from List.js: ascending by element id. -/
def sortCompareById : Cmp := fun entity1 entity2 =>
  if entity1.id = entity2.id then 0 else if entity1.id > entity2.id then 1 else -1

/-- Comparator `sortCompareByReverseId` from List.js: descending by element id. -/
def sortCompareByReverseId : Cmp := fun entity1 entity2 =>
  if entity1.id = entity2.id then 0 else if entity1.id > entity2.id then -1 else 1

/-- JavaScript `array.sort(cmp)` on an entity array, modelled as a stable
insertion sort for the relation `cmp a b <= 0`. -/
def sortEntities (cmp : Cmp) (l : List Entity) : List Entity :=
  l.insertionSort (fun a b => cmp a b ≤ 0)

/-- JavaScript `array.indexOf(e)`: index of the first occurrence, `-1` when
the element is absent. -/
def jsIndexOf (l : List Entity) (e : Entity) : Int :=
  match l with
  | [] => -1
  | x :: rest =>
    if x = e then 0
    else
      let r := jsIndexOf rest e
      if r < 0 then -1 else r + 1

/-- JavaScript `array[i]` for a possibly out-of-range integer index:
`none` stands for `undefined`. -/
def jsGet (l : List Entity) (i : Int) : Option Entity :=
  if 0 ≤ i then l.get? i.toNat else none

/-- Loop `for (let i = a; i < a + k; i++) out.push(array[i])`, skipping
`undefined` entries (the source only runs it on in-range indices). -/
def pushRangeCount (l : List Entity) (a : Int) : Nat → List Entity
  | 0 => []
  | k + 1 => (jsGet l a).toList ++ pushRangeCount l (a + 1) k

/-- Loop `for (let i = a; i <= b; i++) out.push(array[i])` over integer
bounds, as used by the shift-click range selection. -/
def pushRange (l : List Entity) (a b : Int) : List Entity :=
  pushRangeCount l a (b + 1 - a).toNat

section BasicLemmas

theorem sortEntities_perm (cmp : Cmp) (l : List Entity) :
    (sortEntities cmp l).Perm l :=
  List.perm_insertionSort _ l

theorem sortEntities_sorted (cmp : Cmp)
    (htot : ∀ a b, cmp a b ≤ 0 ∨ cmp b a ≤ 0)
    (htrans : ∀ a b c, cmp a b ≤ 0 → cmp b c ≤ 0 → cmp a c ≤ 0)
    (l : List Entity) :
    List.Sorted (fun a b => cmp a b ≤ 0) (sortEntities cmp l) := by
  haveI : IsTotal Entity (fun a b => cmp a b ≤ 0) := ⟨htot⟩
  haveI : IsTrans Entity (fun a b => cmp a b ≤ 0) := ⟨fun a b c => htrans a b c⟩
  exact List.sorted_insertionSort _ l

theorem mem_sortEntities (cmp : Cmp) (l : List Entity) (x : Entity) :
    x ∈ sortEntities cmp l ↔ x ∈ l :=
  List.mem_insertionSort _

theorem jsIndexOf_nonneg (l : List Entity) (e : Entity) :
    e ∈ l → 0 ≤ jsIndexOf l e := by
  induction l with
  | nil => intro h; simp at h
  | cons x rest ih =>
    intro h
    by_cases hx : x = e
    · simp [jsIndexOf, hx]
    · have hmem : e ∈ rest := by
        rcases List.mem_cons.mp h with h1 | h1
        · exact absurd h1.symm hx
        · exact h1
      have := ih hmem
      simp only [jsIndexOf, hx, if_false]
      omega

theorem jsIndexOf_lt_length (l : List Entity) (e : Entity) :
    e ∈ l → jsIndexOf l e < l.length := by
  induction l with
  | nil => intro h; simp at h
  | cons x rest ih =>
    intro h
    by_cases hx : x = e
    · simp [jsIndexOf, hx]
    · have hmem : e ∈ rest := by
        rcases List.mem_cons.mp h with h1 | h1
        · exact absurd h1.symm hx
        · exact h1
      have h1 := ih hmem
      have h0 := jsIndexOf_nonneg rest e hmem
      simp only [jsIndexOf, hx, if_false, List.length_cons]
      omega

theorem jsGet_jsIndexOf (l : List Entity) (e : Entity) :
    e ∈ l → jsGet l (jsIndexOf l e) = some e := by
  induction l with
  | nil => intro h; simp at h
  | cons x rest ih =>
    intro h
    by_cases hx : x = e
    · simp [jsIndexOf, jsGet, hx]
    · have hmem : e ∈ rest := by
        rcases List.mem_cons.mp h with h1 | h1
        · exact absurd h1.symm hx
        · exact h1
      have h0 := jsIndexOf_nonneg rest e hmem
      have hrec := ih hmem
      simp only [jsIndexOf, hx, if_false]
      have hneg : ¬ jsIndexOf rest e < 0 := by omega
      simp only [hneg, if_false]
      simp only [jsGet, h0, if_pos (by omega : (0:Int) ≤ jsIndexOf rest e + 1)]
      have htn : (jsIndexOf rest e + 1).toNat = (jsIndexOf rest e).toNat + 1 := by omega
      rw [htn]
      simpa [jsGet, h0] using hrec

theorem mem_pushRangeCount (l : List Entity) (x : Entity) :
    ∀ (k : Nat) (a : Int),
      x ∈ pushRangeCount l a k ↔ ∃ i : Int, a ≤ i ∧ i < a + k ∧ jsGet l i = some x := by
  intro k
  induction k with
  | zero =>
    intro a
    simp [pushRangeCount]
    intro i h1 h2
    omega
  | succ k ih =>
    intro a
    simp only [pushRangeCount, List.mem_append]
    constructor
    · rintro (h | h)
      · refine ⟨a, le_refl a, by omega, ?_⟩
        cases hg : jsGet l a with
        | none => simp [hg] at h
        | some y =>
          simp [hg] at h
          simp [hg, h]
      · rcases (ih (a + 1)).mp h with ⟨i, hi1, hi2, hi3⟩
        exact ⟨i, by omega, by omega, hi3⟩
    · rintro ⟨i, hi1, hi2, hi3⟩
      by_cases hia : i = a
      · left
        subst hia
        simp [hi3]
      · right
        exact (ih (a + 1)).mpr ⟨i, by omega, by omega, hi3⟩

theorem mem_pushRange (l : List Entity) (x : Entity) (a b : Int) :
    x ∈ pushRange l a b ↔ ∃ i : Int, a ≤ i ∧ i ≤ b ∧ jsGet l i = some x := by
  rw [pushRange, mem_pushRangeCount]
  constructor
  · rintro ⟨i, h1, h2, h3⟩
    exact ⟨i, h1, by omega, h3⟩
  · rintro ⟨i, h1, h2, h3⟩
    exact ⟨i, h1, by omega, h3⟩

end BasicLemmas

/-- Record of one invocation of the `config.elementSelected(entities,
elementClicked, selectionChanged, multiSelectOperation)` callback. -/
structure SelCallback where
  entities : List Entity
  elementClicked : Bool
  selectionChanged : Bool
  multiSelectOperation : Bool
deriving DecidableEq

/-- Observable side calls of a list operation: how many times `_reposition`
ran, and which `elementSelected` callbacks fired, in order. -/
structure Effects where
  repositions : Nat
  callbacks : List SelCallback
deriving DecidableEq

/-- Effects of an operation that neither repositions nor fires a callback. -/
def noEffects : Effects := ⟨0, []⟩

/-- Sequential composition of effects. -/
def Effects.merge (a b : Effects) : Effects :=
  ⟨a.repositions + b.repositions, a.callbacks ++ b.callbacks⟩

/-- State of a `List` instance relevant to the store, selection and
reconciliation operations: `_loadedEntities`, `_selectedEntities`,
`_loadedCompletely`, `ready` and `_idOfEntityToSelectWhenReceived`. -/
structure ListState where
  loadedEntities : List Entity
  selectedEntities : List Entity
  loadedCompletely : Bool
  ready : Bool
  idOfEntityToSelectWhenReceived : Option Nat
deriving DecidableEq

/-- State of the list right after mount: empty store, nothing selected, not
completely loaded, no pending select-on-arrival id; `ready` once the initial
draw ran. -/
def emptyListState : ListState :=
  { loadedEntities := []
    selectedEntities := []
    loadedCompletely := false
    ready := true
    idOfEntityToSelectWhenReceived := none }

/-- Method `_entitySelected(entity, addToSelection)` of List.js. -/
def entitySelected (cmp : Cmp) (s : ListState) (entity : Entity)
    (addToSelection : Bool) : ListState × Effects :=
  if addToSelection then
    if entity ∈ s.selectedEntities then (s, noEffects)
    else
      let sel := sortEntities cmp (s.selectedEntities ++ [entity])
      ({ s with selectedEntities := sel }, ⟨1, [⟨sel, false, true, true⟩]⟩)
  else
    if s.selectedEntities.length = 1 ∧ s.selectedEntities.get? 0 = some entity then
      (s, ⟨0, [⟨s.selectedEntities, false, false, false⟩]⟩)
    else
      ({ s with selectedEntities := [entity] }, ⟨1, [⟨[entity], false, true, false⟩]⟩)

/-- Method `_addToLoadedEntities(entity)` of List.js: no-op with a console
diagnostic when an entity with the same id is already loaded, otherwise push,
re-sort, reposition when ready, and resolve a pending select-on-arrival
request (`_scrollToLoadedEntityAndSelect`, whose selection effect is
`_entitySelected(entity, false)`). -/
def addToLoadedEntities (cmp : Cmp) (s : ListState) (entity : Entity) :
    ListState × Effects :=
  if s.loadedEntities.any (fun e => entity.id = e.id) then
    (s, noEffects)
  else
    let s1 := { s with loadedEntities := sortEntities cmp (s.loadedEntities ++ [entity]) }
    let eff1 : Effects := ⟨if s1.ready then 1 else 0, []⟩
    match s1.idOfEntityToSelectWhenReceived with
    | some selId =>
      if selId = entity.id then
        let s2 := { s1 with idOfEntityToSelectWhenReceived := none }
        let r := entitySelected cmp s2 entity false
        (r.1, Effects.merge eff1 r.2)
      else (s1, eff1)
    | none => (s1, eff1)

/-- Splice loop of `_updateLoadedEntity`: replace the first entity carrying
the same id as the argument, leave the rest untouched. -/
def replaceFirstById (entity : Entity) : List Entity → List Entity
  | [] => []
  | e :: rest =>
    if entity.id = e.id then entity :: rest else e :: replaceFirstById entity rest

/-- Method `_updateLoadedEntity(entity)` of List.js: replace in
`_loadedEntities` by id and re-sort (repositioning when ready), and replace
in `_selectedEntities` by id in place, without re-sorting. -/
def updateLoadedEntity (cmp : Cmp) (s : ListState) (entity : Entity) :
    ListState × Effects :=
  let found := s.loadedEntities.any (fun e => entity.id = e.id)
  let loaded1 :=
    if found then sortEntities cmp (replaceFirstById entity s.loadedEntities)
    else s.loadedEntities
  let sel1 := replaceFirstById entity s.selectedEntities
  ({ s with loadedEntities := loaded1, selectedEntities := sel1 },
   ⟨if found && s.ready then 1 else 0, []⟩)

/-- Method `_deleteLoadedEntity(elementId)` of List.js (after the pending
`_loading` promise settles): find the loaded entity by id; when it is the
sole selected entity and at least one other entity is loaded, push the next
entity (the previous one when it was last) onto the selection; remove the
entity from both sequences; reposition when ready; report a selection change
with the multi flag `!nextElementSelected`. -/
def deleteLoadedEntity (cmp : Cmp) (s : ListState) (elementId : Nat) :
    ListState × Effects :=
  match s.loadedEntities.find? (fun e => e.id = elementId) with
  | none => (s, noEffects)
  | some entity =>
    let soleSelected :=
      s.selectedEntities.length = 1 ∧ s.selectedEntities.get? 0 = some entity ∧
        1 < s.loadedEntities.length
    let nextElementSelected : Bool := if soleSelected then true else false
    let selected1 :=
      if soleSelected then
        let nextSelection :=
          if s.loadedEntities.getLast? = some entity then
            s.loadedEntities.get? (s.loadedEntities.length - 2)
          else
            jsGet s.loadedEntities (jsIndexOf s.loadedEntities entity + 1)
        s.selectedEntities ++ nextSelection.toList
      else s.selectedEntities
    let loaded2 := s.loadedEntities.erase entity
    let selectionChanged : Bool := if entity ∈ selected1 then true else false
    let selected2 := selected1.erase entity
    ({ s with loadedEntities := loaded2, selectedEntities := selected2 },
     ⟨if s.ready then 1 else 0,
      if selectionChanged then [⟨selected2, false, true, !nextElementSelected⟩] else []⟩)

/-- Inner step of the nearest-selected-index scan of `_elementClicked`:
keep whichever of the running nearest index and the next selected entity
index lies closer to the clicked index. -/
def nearestStep (loaded : List Entity) (clickedItemIndex : Int)
    (nearest : Option Int) (sel : Entity) : Option Int :=
  let currentSelectedItemIndex := jsIndexOf loaded sel
  match nearest with
  | none => some currentSelectedItemIndex
  | some n =>
    if (clickedItemIndex - currentSelectedItemIndex).natAbs <
        (clickedItemIndex - n).natAbs then
      some currentSelectedItemIndex
    else some n

/-- Scan of `_elementClicked` locating the already-selected entity whose
index in `_loadedEntities` is nearest to the clicked index. -/
def nearestSelectedIndex (loaded selected : List Entity)
    (clickedItemIndex : Int) : Option Int :=
  selected.foldl (nearestStep loaded clickedItemIndex) none

/-- Range-collection block of `_elementClicked` under shift: all entities
from just past the nearest selected index up to the clicked index (or from
the clicked index up to just before the nearest selected index). When the
selection is empty the source would dereference null; that branch is not
reached because the caller handles an empty selection first. -/
def shiftRangeItems (loaded selected : List Entity) (clicked : Entity) :
    List Entity :=
  let clickedItemIndex := jsIndexOf loaded clicked
  match nearestSelectedIndex loaded selected clickedItemIndex with
  | none => []
  | some nearest =>
    if nearest < clickedItemIndex then
      pushRange loaded (nearest + 1) clickedItemIndex
    else
      pushRange loaded clickedItemIndex (nearest - 1)

/-- Method `_elementClicked(clickedEntity, event)` of List.js, with
`mobileMultiSelectionActive = false`; `ctrlOrMetaPressed` stands for the
platform-appropriate toggle modifier (`metaKey` on macOS, `ctrlKey`
elsewhere). Returns the new state and the effects; the `elementSelected`
callback fires on every click. -/
def elementClicked (cmp : Cmp) (multiSelectionAllowed : Bool) (s : ListState)
    (clicked : Entity) (ctrlOrMetaPressed shiftPressed : Bool) :
    ListState × Effects :=
  let branch : List Entity × Bool × Bool :=
    if multiSelectionAllowed && ctrlOrMetaPressed then
      if clicked ∈ s.selectedEntities then
        (s.selectedEntities.erase clicked, true, true)
      else (s.selectedEntities ++ [clicked], true, true)
    else if multiSelectionAllowed && shiftPressed then
      if s.selectedEntities.length = 0 then ([clicked], true, true)
      else if s.selectedEntities.length = 1 ∧ s.selectedEntities.get? 0 = some clicked then
        (s.selectedEntities, false, true)
      else
        let items := shiftRangeItems s.loadedEntities s.selectedEntities clicked
        (s.selectedEntities ++ items, decide (0 < items.length), true)
    else
      if s.selectedEntities = [clicked] then (s.selectedEntities, false, false)
      else ([clicked], true, false)
  let sel1 := branch.1
  let selectionChanged := branch.2.1
  let multiSelect := branch.2.2
  let sel2 := if selectionChanged then sortEntities cmp sel1 else sel1
  ({ s with selectedEntities := sel2 },
   ⟨if selectionChanged then 1 else 0, [⟨sel2, true, selectionChanged, multiSelect⟩]⟩)

/-- Cursor passed to `config.fetch`: the sentinel `GENERATED_MAX_ID` on the
first page, otherwise the id of the last loaded entity. -/
inductive FetchCursor
  | generatedMaxId
  | fromId (id : Nat)
deriving DecidableEq

/-- Page size constant `PageSize` of List.js. -/
def PageSize : Nat := 100

/-- State of the pagination machinery of a `List` instance: the store, the
`_loadedCompletely` flag, whether the `_loading` promise is fulfilled, and a
count of outbound `config.fetch` calls. -/
structure PagState where
  loadedEntities : List Entity
  loadedCompletely : Bool
  loadingFulfilled : Bool
  fetchCount : Nat
deriving DecidableEq

/-- Pagination state right after construction: `_loading` starts as an
already-resolved promise and no fetch has been issued. -/
def emptyPagState : PagState :=
  { loadedEntities := []
    loadedCompletely := false
    loadingFulfilled := true
    fetchCount := 0 }

/-- Synchronous part of `_loadMore()` of List.js: compute the start cursor
and unconditionally issue a `config.fetch(startId, PageSize)` call, making
`_loading` the new, not yet fulfilled promise. There is no guard on an
in-flight fetch or on `_loadedCompletely` inside `_loadMore` itself. -/
def loadMoreIssue (s : PagState) : PagState × FetchCursor :=
  let startId :=
    match s.loadedEntities.getLast? with
    | none => FetchCursor.generatedMaxId
    | some e => FetchCursor.fromId e.id
  ({ s with loadingFulfilled := false, fetchCount := s.fetchCount + 1 }, startId)

/-- Method `setLoadedCompletely()` of List.js. -/
def setLoadedCompletely (s : PagState) : PagState :=
  { s with loadedCompletely := true }

/-- Completion handler of the `config.fetch` promise inside `_loadMore()`:
mark the list completely loaded when the page is short, write the new items
after the previously loaded ones and re-sort; the `_loading` promise is now
fulfilled. -/
def loadMoreComplete (cmp : Cmp) (s : PagState) (newItems : List Entity) :
    PagState :=
  let s1 := if newItems.length < PageSize then setLoadedCompletely s else s
  { s1 with
    loadedEntities := sortEntities cmp (s1.loadedEntities ++ newItems)
    loadingFulfilled := true }

/-- One `_loadMore()` call whose fetch resolves with `newItems`, run to
completion with no interleaving. -/
def loadMore (cmp : Cmp) (s : PagState) (newItems : List Entity) : PagState :=
  loadMoreComplete cmp (loadMoreIssue s).1 newItems

/-- Pagination trigger condition inside `_scroll()` of List.js: the last
bunch of rows is visible, the `_loading` promise is fulfilled, and the list
is not completely loaded. -/
def scrollTriggersLoad (s : PagState)
    (currentPosition rowHeight visibleElementsHeight : Int) : Bool :=
  let lastBunchVisible :=
    currentPosition > (s.loadedEntities.length : Int) * rowHeight - visibleElementsHeight * 2
  lastBunchVisible && s.loadingFulfilled && !s.loadedCompletely

/-- Pagination part of one `_scroll()` pass: call `_loadMore` exactly when
the trigger condition holds. -/
def scrollLoadStep (cmp : Cmp) (s : PagState)
    (currentPosition rowHeight visibleElementsHeight : Int)
    (newItems : List Entity) : PagState :=
  if scrollTriggersLoad s currentPosition rowHeight visibleElementsHeight then
    loadMore cmp s newItems
  else s

/-- CREATE branch of `entityEventReceived` of List.js, after
`config.loadSingle` resolved and the pending `_loading` promise settled:
insert only when the list is completely loaded, or when something is loaded
and the new entity sorts before the last loaded entity. -/
def entityEventReceivedCreate (cmp : Cmp) (s : ListState)
    (loadSingleResult : Option Entity) : ListState × Effects :=
  match loadSingleResult with
  | none => (s, noEffects)
  | some newEntity =>
    if s.loadedCompletely then addToLoadedEntities cmp s newEntity
    else
      match s.loadedEntities.getLast? with
      | some lastLoaded =>
        if cmp newEntity lastLoaded < 0 then addToLoadedEntities cmp s newEntity
        else (s, noEffects)
      | none => (s, noEffects)

/-- One store mutation, as applied by the sync reconciler: insert
(`_addToLoadedEntities`), replace (`_updateLoadedEntity`) or remove
(`_deleteLoadedEntity`). -/
inductive StoreOp
  | insert (e : Entity)
  | replace (e : Entity)
  | remove (id : Nat)
deriving DecidableEq

/-- Apply one store operation. -/
def applyStoreOp (cmp : Cmp) (s : ListState) : StoreOp → ListState × Effects
  | StoreOp.insert e => addToLoadedEntities cmp s e
  | StoreOp.replace e => updateLoadedEntity cmp s e
  | StoreOp.remove id => deleteLoadedEntity cmp s id

/-- Apply a sequence of store operations, discarding effects. -/
def applyStoreOps (cmp : Cmp) (s : ListState) (ops : List StoreOp) : ListState :=
  ops.foldl (fun st op => (applyStoreOp cmp st op).1) s

/-- State of `_reposition()` of List.js: the geometry configuration, the
scroll position of the container, and the row pool, reduced to the slot
offsets (`row.top`); `loadedCount` stands for `_loadedEntities.length`. -/
structure ReposState where
  rowHeight : Int
  bufferHeight : Int
  visibleElementsHeight : Int
  loadedCount : Nat
  scrollTop : Int
  currentPosition : Int
  offsets : List Int
  updateLater : Bool
deriving DecidableEq

/-- Assignment loop of `_reposition()`: each pool row receives the running
`nextPosition`, which then advances by `rowHeight`. -/
def assignTops (start rowHeight : Int) : Nat → List Int
  | 0 => []
  | n + 1 => start :: assignTops (start + rowHeight) rowHeight n

/-- Start offset computed by `_reposition()`: the scroll position rounded
down to a row boundary minus the buffer height, then forced to `0` when
negative, else capped at `maxStartPosition`. -/
def repositionStart (s : ReposState) : Int :=
  let maxStartPosition :=
    s.rowHeight * (s.loadedCount : Int) - s.bufferHeight * 2 - s.visibleElementsHeight
  let nextPosition := s.scrollTop - s.scrollTop % s.rowHeight - s.bufferHeight
  if nextPosition < 0 then 0
  else if nextPosition > maxStartPosition then maxStartPosition
  else nextPosition

/-- Method `_reposition()` of List.js, restricted to its effect on the
window state: refresh `currentPosition` from the container scroll position,
recompute every row offset from scratch, and clear `updateLater`. The
per-row entity rebinding and DOM writes go to the external render sink. -/
def reposition (s : ReposState) : ReposState :=
  { s with
    currentPosition := s.scrollTop
    offsets := assignTops (repositionStart s) s.rowHeight s.offsets.length
    updateLater := false }

/-- Constant `ActionDistance` of List.js. -/
def ActionDistance : Int := 150

/-- Which swipe action callback `SwipeHandler.end` selects. -/
inductive SwipeAction
  | left
  | right
deriving DecidableEq

/-- Method `end(e)` of `SwipeHandler` (List.js): with a virtual row bound to
an entity, a horizontal displacement beyond `ActionDistance` and a vertical
displacement below the row height, invoke exactly one of
`config.swipe.swipeLeft` / `config.swipe.swipeRight` chosen by the sign of
the horizontal displacement; otherwise reset. The second component is the
horizontal offset the row settles at (both `finish` and `reset` drive
`xoffset` back to `0`). -/
def swipeEnd (dx dy rowHeight : Int) (hasBoundEntity : Bool) :
    Option SwipeAction × Int :=
  if hasBoundEntity ∧ |dx| > ActionDistance ∧ |dy| < rowHeight then
    (some (if dx < 0 then SwipeAction.left else SwipeAction.right), 0)
  else
    (none, 0)

/-- Concrete entities for witnesses and counterexamples. -/
def e1 : Entity := ⟨1, 0⟩

def e2 : Entity := ⟨2, 0⟩

def e3 : Entity := ⟨3, 0⟩

def e4 : Entity := ⟨4, 0⟩

def e5 : Entity := ⟨5, 0⟩

section PreservationLemmas

theorem entitySelected_preserves (cmp : Cmp) (s : ListState) (entity : Entity)
    (b : Bool) :
    (entitySelected cmp s entity b).1.loadedEntities = s.loadedEntities ∧
    (entitySelected cmp s entity b).1.loadedCompletely = s.loadedCompletely := by
  unfold entitySelected
  split <;> split <;> exact ⟨rfl, rfl⟩

theorem addToLoadedEntities_loadedCompletely (cmp : Cmp) (s : ListState)
    (entity : Entity) :
    (addToLoadedEntities cmp s entity).1.loadedCompletely = s.loadedCompletely := by
  unfold addToLoadedEntities
  split
  · rfl
  · dsimp only
    split
    · split
      · exact (entitySelected_preserves cmp _ entity false).2
      · rfl
    · rfl

theorem addToLoadedEntities_loaded_of_dupFree (cmp : Cmp) (s : ListState)
    (entity : Entity)
    (hnew : ¬ s.loadedEntities.any (fun e => entity.id = e.id)) :
    (addToLoadedEntities cmp s entity).1.loadedEntities =
      sortEntities cmp (s.loadedEntities ++ [entity]) := by
  unfold addToLoadedEntities
  rw [if_neg hnew]
  dsimp only
  split
  · split
    · exact (entitySelected_preserves cmp _ entity false).1
    · rfl
  · rfl

end PreservationLemmas

/-- Claim C8: inserting an entity whose identifier already exists in the
loaded sequence is a non-fatal no-op: a diagnostic is logged and the state
(loaded sequence, selection and completelyLoaded flag) is left exactly
unchanged, with no reposition and no selection callback. -/
theorem claimC8_theorem (cmp : Cmp) (s : ListState) (entity : Entity)
    (hdup : entity.id ∈ s.loadedEntities.map Entity.id) :
    addToLoadedEntities cmp s entity = (s, noEffects) := by
  have hany : s.loadedEntities.any (fun e => entity.id = e.id) = true := by
    simp only [List.any_eq_true]
    rcases List.mem_map.mp hdup with ⟨x, hx, hid⟩
    exact ⟨x, hx, by simp [hid]⟩
  unfold addToLoadedEntities
  rw [if_pos hany]

/-- Concrete list state with two loaded entities, for the C8 witness. -/
def sC8 : ListState := { emptyListState with loadedEntities := [e1, e2] }

theorem claimC8_witness :
    addToLoadedEntities sortCompareById sC8 ⟨1, 7⟩ = (sC8, noEffects) :=
  claimC8_theorem sortCompareById sC8 ⟨1, 7⟩ (by decide)

/-- Claim C9: for a touch gesture ending on a row bound to an entity,
exactly one of the swipeLeft/swipeRight callbacks is selected, chosen by the
sign of the horizontal displacement, if and only if the absolute horizontal
displacement exceeds the action distance 150 and the absolute vertical
displacement is less than the row height; otherwise no action callback is
invoked and the row settles back at horizontal offset 0. -/
theorem claimC9_theorem (dx dy rowHeight : Int) :
    ActionDistance = 150 ∧
    ((swipeEnd dx dy rowHeight true).1.isSome ↔ |dx| > 150 ∧ |dy| < rowHeight) ∧
    (|dx| > 150 ∧ |dy| < rowHeight →
      (swipeEnd dx dy rowHeight true).1 =
        some (if dx < 0 then SwipeAction.left else SwipeAction.right)) ∧
    (¬(|dx| > 150 ∧ |dy| < rowHeight) →
      swipeEnd dx dy rowHeight true = (none, 0)) := by
  refine ⟨rfl, ?_, ?_, ?_⟩
  · by_cases h : |dx| > 150 ∧ |dy| < rowHeight
    · simp [swipeEnd, ActionDistance, h]
    · simp [swipeEnd, ActionDistance, h]
  · intro h
    simp [swipeEnd, ActionDistance, h]
  · intro h
    have : ¬(True ∧ |dx| > ActionDistance ∧ |dy| < rowHeight) := by
      simpa [ActionDistance] using h
    simp [swipeEnd, ActionDistance, h]

theorem claimC9_witness :
    (swipeEnd 160 5 60 true).1 = some SwipeAction.right ∧
    swipeEnd 100 5 60 true = (none, 0) := by
  constructor
  · have h := (claimC9_theorem 160 5 60).2.2.1 (by decide)
    simpa using h
  · exact (claimC9_theorem 100 5 60).2.2.2 (by decide)

/-- Claim C10: a CREATE notification arriving while the list is not
completely loaded and the loaded sequence is empty does not insert the
entity, even though it was successfully loaded from the external source: the
guard comparing against the last loaded entity is vacuously false when there
is no last loaded entity, so the state is unchanged and no effect occurs. -/
theorem claimC10_theorem (cmp : Cmp) (s : ListState) (entity : Entity)
    (hnc : s.loadedCompletely = false) (hempty : s.loadedEntities = []) :
    entityEventReceivedCreate cmp s (some entity) = (s, noEffects) := by
  unfold entityEventReceivedCreate
  rw [hnc]
  simp [hempty]

theorem claimC10_witness :
    entityEventReceivedCreate sortCompareById emptyListState (some e1) =
      (emptyListState, noEffects) :=
  claimC10_theorem sortCompareById emptyListState e1 rfl rfl

/-- Pagination state with the first fetch still in flight. -/
def pendingPagState : PagState := (loadMoreIssue emptyPagState).1

/-- Claim C1 counterexample: with a page fetch still in flight (the loading
promise unfulfilled after a first `_loadMore` call), a further `_loadMore`
call issues a second outbound `config.fetch` request instead of sharing the
pending in-flight result. -/
theorem claimC1_counterexample :
    pendingPagState.loadingFulfilled = false ∧
    pendingPagState.fetchCount = 1 ∧
    (loadMoreIssue pendingPagState).1.fetchCount = 2 := by decide

/-- Claim C1 amended: `_loadMore` itself is not single-flight — every call
to it issues an outbound `config.fetch` request. The single-flight behavior
holds only at the scroll-trigger call site: a `_scroll` pass never initiates
a page fetch while the `_loading` promise is unfulfilled, so scroll-driven
pagination issues no additional request during an in-flight fetch. -/
theorem claimC1_amended (cmp : Cmp) (s : PagState)
    (currentPosition rowHeight visibleElementsHeight : Int)
    (newItems : List Entity) (hpending : s.loadingFulfilled = false) :
    (loadMoreIssue s).1.fetchCount = s.fetchCount + 1 ∧
    scrollLoadStep cmp s currentPosition rowHeight visibleElementsHeight newItems = s := by
  constructor
  · rfl
  · unfold scrollLoadStep scrollTriggersLoad
    rw [hpending]
    simp

theorem claimC1_witness :
    (loadMoreIssue pendingPagState).1.fetchCount = pendingPagState.fetchCount + 1 ∧
    scrollLoadStep sortCompareById pendingPagState 1000 10 10 [] = pendingPagState :=
  claimC1_amended sortCompareById pendingPagState 1000 10 10 [] (by decide)

/-- Thirty entities with ascending identifiers, as a short first page. -/
def itemsA : List Entity := (List.range 30).map (fun i => ⟨i + 1, 0⟩)

/-- Scenario A state: empty store, descending comparator, first fetch
returns 30 entities. -/
def sA : PagState := loadMore sortCompareByReverseId emptyPagState itemsA

/-- Claim C4 counterexample: after a short page set `_loadedCompletely`, a
further `_loadMore` call is not a no-op — it still issues an outbound
`config.fetch` request (the guards live in the callers, not in `_loadMore`
itself). -/
theorem claimC4_counterexample :
    sA.loadedCompletely = true ∧
    sA.fetchCount = 1 ∧
    (loadMoreIssue sA).1.fetchCount = 2 := by decide

theorem updateLoadedEntity_loadedCompletely (cmp : Cmp) (s : ListState)
    (entity : Entity) :
    (updateLoadedEntity cmp s entity).1.loadedCompletely = s.loadedCompletely := rfl

theorem deleteLoadedEntity_loadedCompletely (cmp : Cmp) (s : ListState)
    (elementId : Nat) :
    (deleteLoadedEntity cmp s elementId).1.loadedCompletely = s.loadedCompletely := by
  unfold deleteLoadedEntity
  split
  · rfl
  · rfl

/-- Claim C4 amended: a page shorter than the page size 100 sets the
completelyLoaded flag, and the flag is permanent — no further page load and
no store operation resets it; once it is set, scroll-triggered pagination is
a no-op issuing no outbound fetch (and from an empty store a first fetch
returning 30 entities yields completelyLoaded = true with exactly 30 loaded
entities); however a direct `_loadMore` call still issues an outbound fetch,
so "every further call is a no-op" holds only for the guarded call sites. -/
theorem claimC4_amended (cmp : Cmp) (s : PagState) (newItems : List Entity)
    (pos rh vh : Int) (ls : ListState) (op : StoreOp) :
    (newItems.length < PageSize → (loadMore cmp s newItems).loadedCompletely = true) ∧
    (s.loadedCompletely = true → (loadMore cmp s newItems).loadedCompletely = true) ∧
    (s.loadedCompletely = true → scrollLoadStep cmp s pos rh vh newItems = s) ∧
    (applyStoreOp cmp ls op).1.loadedCompletely = ls.loadedCompletely ∧
    (sA.loadedCompletely = true ∧ sA.loadedEntities.length = 30) := by
  refine ⟨?_, ?_, ?_, ?_, by decide⟩
  · intro h
    unfold loadMore loadMoreComplete loadMoreIssue setLoadedCompletely
    simp [h]
  · intro h
    unfold loadMore loadMoreComplete loadMoreIssue setLoadedCompletely
    by_cases hlen : newItems.length < PageSize
    · simp [hlen]
    · simp [hlen, h]
  · intro h
    unfold scrollLoadStep scrollTriggersLoad
    rw [h]
    simp
  · cases op with
    | insert e => exact addToLoadedEntities_loadedCompletely cmp ls e
    | replace e => exact updateLoadedEntity_loadedCompletely cmp ls e
    | remove id => exact deleteLoadedEntity_loadedCompletely cmp ls id

theorem claimC4_witness :
    scrollLoadStep sortCompareByReverseId sA 100000 10 10 [] = sA :=
  (claimC4_amended sortCompareByReverseId sA [] 100000 10 10 emptyListState
    (StoreOp.insert e1)).2.2.1 (by decide)

/-- Concrete list state whose sole selected entity is `e1`, for C5. -/
def sC5 : ListState :=
  { emptyListState with loadedEntities := [e1, e2], selectedEntities := [e1] }

/-- Claim C5 counterexample: a plain click on the already sole-selected
entity leaves the state unchanged, but the `elementSelected` callback still
fires (with selectionChanged = false), contradicting the claim that no
redundant selection callback is fired in that case. -/
theorem claimC5_counterexample :
    (elementClicked sortCompareById true sC5 e1 false false).2.callbacks =
      [⟨[e1], true, false, false⟩] ∧
    (elementClicked sortCompareById true sC5 e1 false false).1 = sC5 := by decide

/-- Claim C5 amended: after a plain click (no ctrl/meta, no shift) on a
loaded entity X the selection is exactly [X]; when the selection already was
exactly [X] the state is unchanged and the callback fires with changed =
false; otherwise the callback fires with explicit = true, changed = true and
multi = false. In every case exactly one callback invocation occurs. -/
theorem claimC5_amended (cmp : Cmp) (multiSelectionAllowed : Bool)
    (s : ListState) (clicked : Entity) :
    (elementClicked cmp multiSelectionAllowed s clicked false false).1.selectedEntities
      = [clicked] ∧
    (elementClicked cmp multiSelectionAllowed s clicked false false).2.callbacks =
      [⟨[clicked], true, if s.selectedEntities = [clicked] then false else true, false⟩] ∧
    (s.selectedEntities = [clicked] →
      (elementClicked cmp multiSelectionAllowed s clicked false false).1 = s) := by
  by_cases h : s.selectedEntities = [clicked]
  · refine ⟨?_, ?_, ?_⟩
    · simp [elementClicked, h]
    · simp [elementClicked, h]
    · intro h2
      simp [elementClicked, h]
      rw [← h]
  · have hsort : sortEntities cmp [clicked] = [clicked] := rfl
    refine ⟨?_, ?_, ?_⟩ <;>
      simp [elementClicked, h, hsort]

/-- Concrete list state with a two-entity multi selection, for the C5
witness. -/
def sC5b : ListState :=
  { emptyListState with loadedEntities := [e1, e2, e3], selectedEntities := [e1, e2] }

theorem claimC5_witness :
    (elementClicked sortCompareById true sC5b e3 false false).1.selectedEntities
      = [e3] ∧
    (elementClicked sortCompareById true sC5b e3 false false).2.callbacks =
      [⟨[e3], true, if sC5b.selectedEntities = [e3] then false else true, false⟩] ∧
    (sC5b.selectedEntities = [e3] →
      (elementClicked sortCompareById true sC5b e3 false false).1 = sC5b) :=
  claimC5_amended sortCompareById true sC5b e3

theorem assignTops_length (start rowHeight : Int) (n : Nat) :
    (assignTops start rowHeight n).length = n := by
  induction n generalizing start with
  | zero => rfl
  | succ n ih => simp [assignTops, ih]

theorem assignTops_get? (rowHeight : Int) :
    ∀ (n i : Nat) (start : Int), i < n →
      (assignTops start rowHeight n).get? i = some (start + (i : Int) * rowHeight) := by
  intro n
  induction n with
  | zero => intro i start h; omega
  | succ n ih =>
    intro i start h
    cases i with
    | zero => simp [assignTops]
    | succ i =>
      have hrec := ih i (start + rowHeight) (by omega)
      simp only [assignTops, List.get?_cons_succ]
      rw [hrec]
      congr 1
      push_cast
      ring

theorem reposState_eq (a b : ReposState)
    (h1 : a.rowHeight = b.rowHeight) (h2 : a.bufferHeight = b.bufferHeight)
    (h3 : a.visibleElementsHeight = b.visibleElementsHeight)
    (h4 : a.loadedCount = b.loadedCount) (h5 : a.scrollTop = b.scrollTop)
    (h6 : a.currentPosition = b.currentPosition) (h7 : a.offsets = b.offsets)
    (h8 : a.updateLater = b.updateLater) : a = b := by
  cases a
  cases b
  simp_all

/-- Claim C7: after a full `_reposition()` the pool row offsets form a
contiguous ascending arithmetic sequence with common difference rowHeight
whose first offset is the scroll position rounded down to a row boundary
minus the buffer height, clamped to [0, maxStart] where maxStart =
loadedCount * rowHeight - 2 * bufferHeight - visibleHeight (the interval
reading of the clamp presupposes maxStart nonnegative, taken as a
hypothesis); and `_reposition()` is idempotent: applying it twice with no
state change between yields the same offsets (indeed the same state) as
applying it once. -/
theorem claimC7_theorem (s : ReposState)
    (hms : 0 ≤ s.rowHeight * (s.loadedCount : Int) - s.bufferHeight * 2 -
      s.visibleElementsHeight) :
    (reposition s).offsets.length = s.offsets.length ∧
    (∀ i : Nat, i < s.offsets.length →
      (reposition s).offsets.get? i =
        some (max 0 (min
            (s.rowHeight * (s.loadedCount : Int) - s.bufferHeight * 2 -
              s.visibleElementsHeight)
            (s.scrollTop - s.scrollTop % s.rowHeight - s.bufferHeight)) +
          (i : Int) * s.rowHeight)) ∧
    reposition (reposition s) = reposition s := by
  have hstart : repositionStart s =
      max 0 (min
        (s.rowHeight * (s.loadedCount : Int) - s.bufferHeight * 2 -
          s.visibleElementsHeight)
        (s.scrollTop - s.scrollTop % s.rowHeight - s.bufferHeight)) := by
    simp only [repositionStart]
    split_ifs <;> omega
  have hlen : (reposition s).offsets.length = s.offsets.length := by
    simp [reposition, assignTops_length]
  refine ⟨hlen, ?_, ?_⟩
  · intro i hi
    show (assignTops (repositionStart s) s.rowHeight s.offsets.length).get? i = _
    rw [assignTops_get? s.rowHeight s.offsets.length i (repositionStart s) hi, hstart]
  · have hoff : (reposition (reposition s)).offsets = (reposition s).offsets := by
      show assignTops (repositionStart (reposition s)) (reposition s).rowHeight
          (reposition s).offsets.length = (reposition s).offsets
      rw [hlen]
      rfl
    exact reposState_eq _ _ rfl rfl rfl rfl rfl rfl hoff rfl

/-- Concrete reposition state for the C7 witness: 20 loaded rows of height
10, a 4-slot pool, buffer 20, viewport 40, scrolled to 57. -/
def sC7 : ReposState :=
  { rowHeight := 10
    bufferHeight := 20
    visibleElementsHeight := 40
    loadedCount := 20
    scrollTop := 57
    currentPosition := 0
    offsets := [0, 0, 0, 0]
    updateLater := true }

theorem claimC7_witness :
    (reposition sC7).offsets.get? 2 =
      some (max 0 (min
          (sC7.rowHeight * (sC7.loadedCount : Int) - sC7.bufferHeight * 2 -
            sC7.visibleElementsHeight)
          (sC7.scrollTop - sC7.scrollTop % sC7.rowHeight - sC7.bufferHeight)) +
        ((2 : Nat) : Int) * sC7.rowHeight) ∧
    reposition (reposition sC7) = reposition sC7 :=
  ⟨(claimC7_theorem sC7 (by decide)).2.1 2 (by decide),
   (claimC7_theorem sC7 (by decide)).2.2⟩

/-- Invariant of the ordered entity store: the loaded sequence is sorted by
the comparator and carries pairwise distinct identifiers. -/
def storeSortedNodup (cmp : Cmp) (l : List Entity) : Prop :=
  List.Sorted (fun a b => cmp a b ≤ 0) l ∧ (l.map Entity.id).Nodup

theorem map_id_replaceFirstById (entity : Entity) (l : List Entity) :
    (replaceFirstById entity l).map Entity.id = l.map Entity.id := by
  induction l with
  | nil => rfl
  | cons x rest ih =>
    by_cases h : entity.id = x.id
    · simp [replaceFirstById, h]
    · simp [replaceFirstById, h, ih]

theorem nodup_map_sortEntities (cmp : Cmp) (l : List Entity)
    (h : (l.map Entity.id).Nodup) :
    ((sortEntities cmp l).map Entity.id).Nodup := by
  have hperm : ((sortEntities cmp l).map Entity.id).Perm (l.map Entity.id) :=
    (sortEntities_perm cmp l).map Entity.id
  exact (List.Perm.nodup_iff hperm).mpr h

theorem storeInv_insert (cmp : Cmp)
    (htot : ∀ a b, cmp a b ≤ 0 ∨ cmp b a ≤ 0)
    (htrans : ∀ a b c, cmp a b ≤ 0 → cmp b c ≤ 0 → cmp a c ≤ 0)
    (s : ListState) (entity : Entity)
    (h : storeSortedNodup cmp s.loadedEntities) :
    storeSortedNodup cmp (addToLoadedEntities cmp s entity).1.loadedEntities := by
  by_cases hany : s.loadedEntities.any (fun e => entity.id = e.id)
  · rw [show (addToLoadedEntities cmp s entity).1 = s by
      unfold addToLoadedEntities; rw [if_pos hany]]
    exact h
  · rw [addToLoadedEntities_loaded_of_dupFree cmp s entity hany]
    constructor
    · exact sortEntities_sorted cmp htot htrans _
    · apply nodup_map_sortEntities
      have hnotmem : entity.id ∉ s.loadedEntities.map Entity.id := by
        intro hmem
        apply hany
        rcases List.mem_map.mp hmem with ⟨x, hx, hid⟩
        simp only [List.any_eq_true]
        exact ⟨x, hx, by simp [hid]⟩
      simp [List.nodup_append, h.2, hnotmem]

theorem storeInv_replace (cmp : Cmp)
    (htot : ∀ a b, cmp a b ≤ 0 ∨ cmp b a ≤ 0)
    (htrans : ∀ a b c, cmp a b ≤ 0 → cmp b c ≤ 0 → cmp a c ≤ 0)
    (s : ListState) (entity : Entity)
    (h : storeSortedNodup cmp s.loadedEntities) :
    storeSortedNodup cmp (updateLoadedEntity cmp s entity).1.loadedEntities := by
  unfold updateLoadedEntity
  dsimp only
  by_cases hfound : s.loadedEntities.any (fun e => entity.id = e.id)
  · rw [if_pos hfound]
    constructor
    · exact sortEntities_sorted cmp htot htrans _
    · apply nodup_map_sortEntities
      rw [map_id_replaceFirstById]
      exact h.2
  · rw [if_neg hfound]
    exact h

theorem storeInv_remove (cmp : Cmp) (s : ListState) (elementId : Nat)
    (h : storeSortedNodup cmp s.loadedEntities) :
    storeSortedNodup cmp (deleteLoadedEntity cmp s elementId).1.loadedEntities := by
  unfold deleteLoadedEntity
  cases hfind : s.loadedEntities.find? (fun e => e.id = elementId) with
  | none => exact h
  | some entity =>
    dsimp only
    constructor
    · exact List.Pairwise.sublist (List.erase_sublist entity s.loadedEntities) h.1
    · exact List.Nodup.sublist
        (List.Sublist.map Entity.id (List.erase_sublist entity s.loadedEntities)) h.2

theorem storeInv_step (cmp : Cmp)
    (htot : ∀ a b, cmp a b ≤ 0 ∨ cmp b a ≤ 0)
    (htrans : ∀ a b c, cmp a b ≤ 0 → cmp b c ≤ 0 → cmp a c ≤ 0)
    (s : ListState) (op : StoreOp)
    (h : storeSortedNodup cmp s.loadedEntities) :
    storeSortedNodup cmp (applyStoreOp cmp s op).1.loadedEntities := by
  cases op with
  | insert e => exact storeInv_insert cmp htot htrans s e h
  | replace e => exact storeInv_replace cmp htot htrans s e h
  | remove id => exact storeInv_remove cmp s id h

/-- Claim C2: for every sequence of insert/replace/remove operations applied
to an initially empty store, the loaded sequence stays sorted by the
configured comparator and contains no two entities with the same
identifier. The comparator is assumed to be a total preorder, as required of
`config.sortCompare`. -/
theorem claimC2_theorem (cmp : Cmp)
    (htot : ∀ a b, cmp a b ≤ 0 ∨ cmp b a ≤ 0)
    (htrans : ∀ a b c, cmp a b ≤ 0 → cmp b c ≤ 0 → cmp a c ≤ 0)
    (ops : List StoreOp) :
    List.Sorted (fun a b => cmp a b ≤ 0)
      (applyStoreOps cmp emptyListState ops).loadedEntities ∧
    ((applyStoreOps cmp emptyListState ops).loadedEntities.map Entity.id).Nodup := by
  have main : ∀ (l : List StoreOp) (s : ListState),
      storeSortedNodup cmp s.loadedEntities →
      storeSortedNodup cmp (applyStoreOps cmp s l).loadedEntities := by
    intro l
    induction l with
    | nil => intro s h; exact h
    | cons op rest ih =>
      intro s h
      exact ih _ (storeInv_step cmp htot htrans s op h)
  exact main ops emptyListState ⟨List.sorted_nil, List.nodup_nil⟩

/-- Demonstration operation sequence for the C2 witness: inserts (including
a duplicate-id insert), a replace and a remove. -/
def demoOps : List StoreOp :=
  [StoreOp.insert e3, StoreOp.insert e1, StoreOp.insert e2,
   StoreOp.insert ⟨1, 5⟩, StoreOp.replace ⟨2, 9⟩, StoreOp.remove 3]

theorem claimC2_witness :
    List.Sorted (fun a b => sortCompareById a b ≤ 0)
      (applyStoreOps sortCompareById emptyListState demoOps).loadedEntities ∧
    ((applyStoreOps sortCompareById emptyListState demoOps).loadedEntities.map
      Entity.id).Nodup :=
  claimC2_theorem sortCompareById
    (by
      intro a b
      simp only [sortCompareById]
      split_ifs <;> omega)
    (by
      intro a b c
      simp only [sortCompareById]
      split_ifs <;> omega)
    demoOps

/-- Claim C3: removing (via a DELETE notification) the sole selected entity
while at least one other entity is loaded moves the selection to the next
loaded entity in sort order — to the previous one when the removed entity
was the last — and fires the selection callback with explicit = false,
changed = true and multi = false; the multi flag is inverted relative to an
ordinary selection shrink, which fires with multi = true (final conjunct). -/
theorem claimC3_theorem (cmp : Cmp) (s : ListState) (elementId : Nat) (e : Entity)
    (hfind : s.loadedEntities.find? (fun x => x.id = elementId) = some e)
    (hsel : s.selectedEntities = [e])
    (hlen : 1 < s.loadedEntities.length) :
    (∃ nextE : Entity,
      (if s.loadedEntities.getLast? = some e
        then s.loadedEntities.get? (s.loadedEntities.length - 2) = some nextE
        else jsGet s.loadedEntities (jsIndexOf s.loadedEntities e + 1) = some nextE) ∧
      (deleteLoadedEntity cmp s elementId).1.selectedEntities = [nextE] ∧
      (deleteLoadedEntity cmp s elementId).1.loadedEntities =
        s.loadedEntities.erase e ∧
      (deleteLoadedEntity cmp s elementId).2.callbacks =
        [⟨[nextE], false, true, false⟩]) ∧
    (∀ (s2 : ListState) (id2 : Nat) (f : Entity),
      s2.loadedEntities.find? (fun x => x.id = id2) = some f →
      f ∈ s2.selectedEntities →
      ¬(s2.selectedEntities.length = 1 ∧ s2.selectedEntities.get? 0 = some f ∧
          1 < s2.loadedEntities.length) →
      (deleteLoadedEntity cmp s2 id2).2.callbacks =
        [⟨(deleteLoadedEntity cmp s2 id2).1.selectedEntities, false, true, true⟩]) := by
  constructor
  · have hss : s.selectedEntities.length = 1 ∧
        s.selectedEntities.get? 0 = some e ∧ 1 < s.loadedEntities.length :=
      ⟨by simp [hsel], by simp [hsel], hlen⟩
    by_cases hlast : s.loadedEntities.getLast? = some e
    · obtain ⟨nextE, hnext⟩ :
          ∃ x, s.loadedEntities.get? (s.loadedEntities.length - 2) = some x := by
        have h2 : s.loadedEntities.length - 2 < s.loadedEntities.length := by omega
        exact ⟨s.loadedEntities.get ⟨s.loadedEntities.length - 2, h2⟩,
          List.get?_eq_get h2⟩
      refine ⟨nextE, by rw [if_pos hlast]; exact hnext, ?_, ?_, ?_⟩ <;>
        · simp only [deleteLoadedEntity, hfind]
          try simp only [eq_true hss, if_true, eq_true hlast, hnext, hsel]
          try simp [List.erase_cons_head, hlen]
    · have hmem : e ∈ s.loadedEntities := List.mem_of_find?_eq_some hfind
      have h0 := jsIndexOf_nonneg s.loadedEntities e hmem
      have h1 := jsIndexOf_lt_length s.loadedEntities e hmem
      have hgetIdx := jsGet_jsIndexOf s.loadedEntities e hmem
      have hgetIdx2 : s.loadedEntities.get? (jsIndexOf s.loadedEntities e).toNat =
          some e := by
        rw [← hgetIdx]
        simp [jsGet, h0]
      have hne : (jsIndexOf s.loadedEntities e).toNat ≠ s.loadedEntities.length - 1 := by
        intro hEq
        apply hlast
        rw [List.getLast?_eq_getElem?, ← hEq, ← List.get?_eq_getElem?]
        exact hgetIdx2
      obtain ⟨nextE, hnext⟩ :
          ∃ x, jsGet s.loadedEntities (jsIndexOf s.loadedEntities e + 1) = some x := by
        have hlt : (jsIndexOf s.loadedEntities e + 1).toNat < s.loadedEntities.length := by
          omega
        refine ⟨s.loadedEntities.get ⟨(jsIndexOf s.loadedEntities e + 1).toNat, hlt⟩, ?_⟩
        have hnn : (0 : Int) ≤ jsIndexOf s.loadedEntities e + 1 := by omega
        simp only [jsGet, hnn, if_true]
        exact List.get?_eq_get hlt
      refine ⟨nextE, by rw [if_neg hlast]; exact hnext, ?_, ?_, ?_⟩ <;>
        · simp only [deleteLoadedEntity, hfind]
          try simp only [eq_true hss, if_true, eq_false hlast, if_false, hnext, hsel]
          try simp [List.erase_cons_head, hlen]
  · intro s2 id2 f hfind2 hmem2 hns
    simp only [deleteLoadedEntity, hfind2]
    simp only [eq_false hns, if_false]
    simp [hmem2]

/-- Concrete state for the C3 witness: three loaded entities, the middle one
being the sole selected entity. -/
def sC3 : ListState :=
  { emptyListState with loadedEntities := [e1, e2, e3], selectedEntities := [e2] }

theorem claimC3_witness :
    (deleteLoadedEntity sortCompareById sC3 2).1.selectedEntities = [e3] ∧
    (deleteLoadedEntity sortCompareById sC3 2).2.callbacks =
      [⟨[e3], false, true, false⟩] := by
  obtain ⟨⟨nextE, h1, h2, h3, h4⟩, -⟩ :=
    claimC3_theorem sortCompareById sC3 2 e2 (by decide) (by decide) (by decide)
  rw [if_neg (by decide)] at h1
  have he : jsGet sC3.loadedEntities (jsIndexOf sC3.loadedEntities e2 + 1) =
      some e3 := by decide
  rw [he] at h1
  injection h1 with h5
  subst h5
  exact ⟨h2, h4⟩

theorem nearest_foldl_spec (loaded : List Entity) (c : Int) :
    ∀ (sel : List Entity) (x : Entity),
      ∃ y, (y = x ∨ y ∈ sel) ∧
        sel.foldl (nearestStep loaded c) (some (jsIndexOf loaded x)) =
          some (jsIndexOf loaded y) := by
  intro sel
  induction sel with
  | nil => intro x; exact ⟨x, Or.inl rfl, rfl⟩
  | cons s0 rest ih =>
    intro x
    simp only [List.foldl_cons]
    by_cases hc : (c - jsIndexOf loaded s0).natAbs < (c - jsIndexOf loaded x).natAbs
    · obtain ⟨y, hy, heq⟩ := ih s0
      refine ⟨y, ?_, ?_⟩
      · rcases hy with h | h
        · exact Or.inr (by simp [h])
        · exact Or.inr (by simp [h])
      · rw [show nearestStep loaded c (some (jsIndexOf loaded x)) s0 =
            some (jsIndexOf loaded s0) by simp [nearestStep, hc]]
        exact heq
    · obtain ⟨y, hy, heq⟩ := ih x
      refine ⟨y, ?_, ?_⟩
      · rcases hy with h | h
        · exact Or.inl h
        · exact Or.inr (by simp [h])
      · rw [show nearestStep loaded c (some (jsIndexOf loaded x)) s0 =
            some (jsIndexOf loaded x) by simp [nearestStep, hc]]
        exact heq

theorem nearestSelectedIndex_mem (loaded : List Entity) (sel : List Entity)
    (c : Int) (h : sel ≠ []) :
    ∃ y ∈ sel, nearestSelectedIndex loaded sel c = some (jsIndexOf loaded y) := by
  match sel, h with
  | s0 :: rest, _ =>
    obtain ⟨y, hy, heq⟩ := nearest_foldl_spec loaded c rest s0
    refine ⟨y, ?_, ?_⟩
    · rcases hy with h1 | h1
      · simp [h1]
      · simp [h1]
    · show (s0 :: rest).foldl (nearestStep loaded c) none = some (jsIndexOf loaded y)
      rw [List.foldl_cons]
      rw [show nearestStep loaded c none s0 = some (jsIndexOf loaded s0) from rfl]
      exact heq

theorem elementClicked_shift_selected (cmp : Cmp) (s : ListState) (clicked : Entity)
    (hlen0 : ¬ s.selectedEntities.length = 0)
    (hnotone : ¬(s.selectedEntities.length = 1 ∧
      s.selectedEntities.get? 0 = some clicked)) :
    (elementClicked cmp true s clicked false true).1.selectedEntities =
      if 0 < (shiftRangeItems s.loadedEntities s.selectedEntities clicked).length
      then sortEntities cmp (s.selectedEntities ++
        shiftRangeItems s.loadedEntities s.selectedEntities clicked)
      else s.selectedEntities ++
        shiftRangeItems s.loadedEntities s.selectedEntities clicked := by
  have hf : ((true && false : Bool) = true) = False := by simp
  have ht : ((true && true : Bool) = true) = True := by simp
  simp only [elementClicked, hf, ht, if_false, if_true]
  rw [if_neg hlen0, if_neg hnotone]
  simp only [decide_eq_true_eq]

/-- Claim C6: for a shift-click on a loaded entity while the current
selection is non-empty and not exactly the clicked entity, the selection
afterwards consists exactly of the previously selected entities, the
clicked entity, and every loaded entity strictly between the index of the
nearest already-selected entity and the clicked index; `n` is that nearest
index, fixed by the hypothesis on the scan result. In particular
(witness), with only E2 selected and E1..E5 loaded in order, shift-clicking
E5 yields the selection made of E2, E3, E4 and E5. -/
theorem claimC6_theorem (cmp : Cmp) (s : ListState) (clicked : Entity) (n : Int)
    (hne : s.selectedEntities ≠ [])
    (hnotone : ¬(s.selectedEntities.length = 1 ∧
      s.selectedEntities.get? 0 = some clicked))
    (hclicked : clicked ∈ s.loadedEntities)
    (hsub : ∀ x ∈ s.selectedEntities, x ∈ s.loadedEntities)
    (hn : nearestSelectedIndex s.loadedEntities s.selectedEntities
        (jsIndexOf s.loadedEntities clicked) = some n) :
    ∀ x : Entity,
      x ∈ (elementClicked cmp true s clicked false true).1.selectedEntities ↔
        (x ∈ s.selectedEntities ∨ x = clicked ∨
          x ∈ pushRange s.loadedEntities
            (min n (jsIndexOf s.loadedEntities clicked) + 1)
            (max n (jsIndexOf s.loadedEntities clicked) - 1)) := by
  intro x
  have hlen0 : ¬ s.selectedEntities.length = 0 := by
    simpa [List.length_eq_zero] using hne
  have hitems : shiftRangeItems s.loadedEntities s.selectedEntities clicked =
      if n < jsIndexOf s.loadedEntities clicked then
        pushRange s.loadedEntities (n + 1) (jsIndexOf s.loadedEntities clicked)
      else
        pushRange s.loadedEntities (jsIndexOf s.loadedEntities clicked) (n - 1) := by
    simp only [shiftRangeItems]
    rw [hn]
  have hmemres :
      x ∈ (elementClicked cmp true s clicked false true).1.selectedEntities ↔
        x ∈ s.selectedEntities ∨
          x ∈ shiftRangeItems s.loadedEntities s.selectedEntities clicked := by
    rw [elementClicked_shift_selected cmp s clicked hlen0 hnotone]
    by_cases hp :
        0 < (shiftRangeItems s.loadedEntities s.selectedEntities clicked).length
    · rw [if_pos hp, mem_sortEntities, List.mem_append]
    · rw [if_neg hp, List.mem_append]
  obtain ⟨y, hySel, hyIdx⟩ :=
    nearestSelectedIndex_mem s.loadedEntities s.selectedEntities
      (jsIndexOf s.loadedEntities clicked) hne
  have hyn : jsIndexOf s.loadedEntities y = n := by
    have := hyIdx.symm.trans hn
    injection this
  have hc0 : 0 ≤ jsIndexOf s.loadedEntities clicked :=
    jsIndexOf_nonneg s.loadedEntities clicked hclicked
  have hcget : jsGet s.loadedEntities (jsIndexOf s.loadedEntities clicked) =
      some clicked := jsGet_jsIndexOf s.loadedEntities clicked hclicked
  have hnget : jsGet s.loadedEntities n = some y := by
    rw [← hyn]
    exact jsGet_jsIndexOf s.loadedEntities y (hsub y hySel)
  rw [hmemres, hitems]
  rcases lt_trichotomy n (jsIndexOf s.loadedEntities clicked) with hlt | heq | hgt
  · rw [if_pos hlt, min_eq_left hlt.le, max_eq_right hlt.le]
    constructor
    · rintro (h | h)
      · exact Or.inl h
      · rcases (mem_pushRange _ _ _ _).mp h with ⟨i, hi1, hi2, hi3⟩
        by_cases hic : i = jsIndexOf s.loadedEntities clicked
        · subst hic
          rw [hcget] at hi3
          injection hi3 with h4
          exact Or.inr (Or.inl h4.symm)
        · exact Or.inr (Or.inr ((mem_pushRange _ _ _ _).mpr
            ⟨i, hi1, by omega, hi3⟩))
    · rintro (h | h | h)
      · exact Or.inl h
      · subst h
        exact Or.inr ((mem_pushRange _ _ _ _).mpr
          ⟨jsIndexOf s.loadedEntities x, by omega, le_refl _, hcget⟩)
      · rcases (mem_pushRange _ _ _ _).mp h with ⟨i, hi1, hi2, hi3⟩
        exact Or.inr ((mem_pushRange _ _ _ _).mpr ⟨i, hi1, by omega, hi3⟩)
  · rw [if_neg (by omega)]
    have hyclicked : y = clicked := by
      rw [heq, hcget] at hnget
      injection hnget with h4
      exact h4.symm
    have hempty1 : ∀ z : Entity,
        z ∉ pushRange s.loadedEntities (jsIndexOf s.loadedEntities clicked) (n - 1) := by
      intro z hz
      rcases (mem_pushRange _ _ _ _).mp hz with ⟨i, hi1, hi2, hi3⟩
      omega
    have hempty2 : ∀ z : Entity,
        z ∉ pushRange s.loadedEntities
          (min n (jsIndexOf s.loadedEntities clicked) + 1)
          (max n (jsIndexOf s.loadedEntities clicked) - 1) := by
      intro z hz
      rcases (mem_pushRange _ _ _ _).mp hz with ⟨i, hi1, hi2, hi3⟩
      omega
    constructor
    · rintro (h | h)
      · exact Or.inl h
      · exact absurd h (hempty1 x)
    · rintro (h | h | h)
      · exact Or.inl h
      · subst h
        rw [← hyclicked]
        exact Or.inl hySel
      · exact absurd h (hempty2 x)
  · rw [if_neg (by omega), min_eq_right hgt.le, max_eq_left hgt.le]
    constructor
    · rintro (h | h)
      · exact Or.inl h
      · rcases (mem_pushRange _ _ _ _).mp h with ⟨i, hi1, hi2, hi3⟩
        by_cases hic : i = jsIndexOf s.loadedEntities clicked
        · subst hic
          rw [hcget] at hi3
          injection hi3 with h4
          exact Or.inr (Or.inl h4.symm)
        · exact Or.inr (Or.inr ((mem_pushRange _ _ _ _).mpr
            ⟨i, by omega, hi2, hi3⟩))
    · rintro (h | h | h)
      · exact Or.inl h
      · subst h
        exact Or.inr ((mem_pushRange _ _ _ _).mpr
          ⟨jsIndexOf s.loadedEntities x, le_refl _, by omega, hcget⟩)
      · rcases (mem_pushRange _ _ _ _).mp h with ⟨i, hi1, hi2, hi3⟩
        exact Or.inr ((mem_pushRange _ _ _ _).mpr ⟨i, by omega, hi2, hi3⟩)

/-- Scenario C state: E1..E5 loaded in order, only E2 selected. -/
def sC6 : ListState :=
  { emptyListState with
    loadedEntities := [e1, e2, e3, e4, e5]
    selectedEntities := [e2] }

theorem claimC6_witness :
    (e4 ∈ (elementClicked sortCompareById true sC6 e5 false true).1.selectedEntities ↔
      (e4 ∈ sC6.selectedEntities ∨ e4 = e5 ∨
        e4 ∈ pushRange sC6.loadedEntities
          (min 1 (jsIndexOf sC6.loadedEntities e5) + 1)
          (max 1 (jsIndexOf sC6.loadedEntities e5) - 1))) ∧
    (elementClicked sortCompareById true sC6 e5 false true).1.selectedEntities =
      [e2, e3, e4, e5] :=
  ⟨claimC6_theorem sortCompareById sC6 e5 1 (by decide) (by decide) (by decide)
      (by decide) (by decide) e4,
   by decide⟩
